import Mathlib

/-!
Verification of the event-extraction pipeline of `src/backend/parser.py`
(repository eventscan-app).  The Python code is shallowly embedded:
pure helpers become Lean functions on `String` / `List Char`, the
stateful search cache becomes explicit state passing, network and LLM
effects are abstracted as explicit inputs to the embedded functions.
-/

/-! ## Character and string utilities (models of Python primitives) -/

/-- Model of the regex class `\d` (ASCII digits, as matched on these inputs). -/
def isDigitCh (c : Char) : Bool := decide ('0' ≤ c) && decide (c ≤ '9')

/-- Model of the regex class `\s` (Python whitespace; ASCII part, which is all
the pipeline's inputs exercise). -/
def isPyWs (c : Char) : Bool :=
  c = ' ' || c = '\t' || c = '\n' || c = '\x0d' || c = '\x0b' || c = '\x0c'

/-- Model of the regex class `[а-яА-ЯёЁ]` used in `_is_valid_title`. -/
def isCyrillicCh (c : Char) : Bool :=
  (decide ('а' ≤ c) && decide (c ≤ 'я')) || (decide ('А' ≤ c) && decide (c ≤ 'Я')) ||
    c = 'ё' || c = 'Ё'

/-- Model of the regex class `[a-zA-Z]` used in `_is_valid_title`. -/
def isLatinCh (c : Char) : Bool :=
  (decide ('a' ≤ c) && decide (c ≤ 'z')) || (decide ('A' ≤ c) && decide (c ≤ 'Z'))

/-- Model of the regex class `[ÐÑÐ]` (the mojibake character class of
`_is_valid_title`; the class contains the two characters `Ð` and `Ñ`). -/
def isMojibakeCh (c : Char) : Bool := c = 'Ð' || c = 'Ñ'

/-- Model of the regex class `[а-яА-Я]` used in the Cyrillic date patterns
(note: unlike the title regex, it does not include `ё`/`Ё`). -/
def isCyrDateCh (c : Char) : Bool :=
  (decide ('а' ≤ c) && decide (c ≤ 'я')) || (decide ('А' ≤ c) && decide (c ≤ 'Я'))

/-- Model of Python `str.lower` restricted to ASCII Latin and the Russian
alphabet (the only characters the pipeline lowercases). -/
def pyLowerCh (c : Char) : Char :=
  if decide ('A' ≤ c) && decide (c ≤ 'Z') then Char.ofNat (c.toNat + 32)
  else if decide ('А' ≤ c) && decide (c ≤ 'Я') then Char.ofNat (c.toNat + 32)
  else if c = 'Ё' then 'ё'
  else c

def pyLower (s : String) : String := ⟨s.data.map pyLowerCh⟩

/-- Boolean substring test: does `k` occur inside `s`?  Models Python's
`k in s` on strings. -/
def containsSub (k : List Char) : List Char → Bool
  | [] => k.isPrefixOf []
  | c :: rest => k.isPrefixOf (c :: rest) || containsSub k rest

def strContains (s k : String) : Bool := containsSub k.data s.data

/-- Model of Python `str.strip()` (whitespace trimmed from both ends). -/
def pyStrip (s : String) : String :=
  ⟨((s.data.dropWhile isPyWs).reverse.dropWhile isPyWs).reverse⟩

/-- Digit list to number (used to model `int(...)` on regex capture groups,
which are pure digit strings whenever the conversion succeeds). -/
def digitsToNat (l : List Char) : Nat :=
  l.foldl (fun acc c => acc * 10 + (c.toNat - '0'.toNat)) 0

/-- Model of Python `int(group)`: succeeds exactly on nonempty all-digit
groups (a Cyrillic capture group raises `ValueError`). -/
def strToNatOpt (l : List Char) : Option Nat :=
  if l ≠ [] && l.all isDigitCh then some (digitsToNat l) else none

/-! ## Model of `datetime` -/

/-- Model of a Python `datetime`: calendar date plus seconds-of-day.
`datetime(y, m, d)` constructs midnight (`sod = 0`); `datetime.now()` has an
arbitrary time of day. -/
structure PyDateTime where
  year : Nat
  month : Nat
  day : Nat
  sod : Nat
deriving DecidableEq, Repr

/-- Model of `datetime` comparison `a < b` (lexicographic on date then time). -/
def dtLt (a b : PyDateTime) : Bool :=
  if a.year ≠ b.year then decide (a.year < b.year)
  else if a.month ≠ b.month then decide (a.month < b.month)
  else if a.day ≠ b.day then decide (a.day < b.day)
  else decide (a.sod < b.sod)

def isLeapYear (y : Nat) : Bool := (y % 4 = 0 && y % 100 ≠ 0) || y % 400 = 0

def daysInMonth (y m : Nat) : Nat :=
  if m = 2 then (if isLeapYear y then 29 else 28)
  else if m = 4 || m = 6 || m = 9 || m = 11 then 30
  else 31

/-- Model of the `datetime(year, month, day)` constructor: returns `none`
exactly when CPython raises `ValueError` (out-of-range fields). -/
def mkDatetime (y m d : Nat) : Option PyDateTime :=
  if 1 ≤ y && y ≤ 9999 && 1 ≤ m && m ≤ 12 && 1 ≤ d && d ≤ daysInMonth y m then
    some ⟨y, m, d, 0⟩
  else none

/-- Model of `strftime("%d.%m.%Y")`; day and month zero-padded to two digits
(years produced by the pipeline are four-digit, printed unpadded). -/
def pad2 (n : Nat) : String := if n < 10 then "0" ++ toString n else toString n

def strftimeDMY (d : PyDateTime) : String :=
  pad2 d.day ++ "." ++ pad2 d.month ++ "." ++ toString d.year

/-! ## `EventParser._is_valid_title` (parser.py lines 158-166) -/

/-- Detects a run of at least 3 consecutive mojibake-class characters,
modelling `re.search(r'[ÐÑÐ]\x7b3,\x7d', title)`. -/
def hasMojibakeRun : List Char → Bool
  | c1 :: c2 :: c3 :: rest =>
      (isMojibakeCh c1 && isMojibakeCh c2 && isMojibakeCh c3) ||
        hasMojibakeRun (c2 :: c3 :: rest)
  | _ => false

/-- Model of `EventParser._is_valid_title` (parser.py lines 158-166):
reject empty / short titles, titles with neither Cyrillic nor Latin letters,
and titles containing a mojibake run. -/
def is_valid_title (title : String) : Bool :=
  if title = "" || title.data.length < 5 then false
  else
    let hasCyr := title.data.any isCyrillicCh
    let hasLat := title.data.any isLatinCh
    let hasGarbage := hasMojibakeRun title.data
    (hasCyr || hasLat) && !hasGarbage

example : is_valid_title "ab" = false := by decide
example : is_valid_title "Конференция по AI" = true := by decide
example : is_valid_title "ÐÑÐÑÐ" = false := by decide
example : is_valid_title "" = false := by decide
example : is_valid_title "hello world" = true := by decide
example : is_valid_title "12345" = false := by decide

/-! ## `EventParser._parse_date_string` (parser.py lines 195-232)

The four regexes in `self.date_patterns` are embedded as backtracking
matchers with Python `re` semantics: `re.search` returns the leftmost
match, and within one position alternatives are tried in greedy
(longest-first) order for each quantifier. -/

/-- All ways a quantified character class `p\x7blo,hi\x7d` can match a prefix
of `s`, in greedy (longest-first) backtracking order, paired with the
remaining input. -/
def repOpts (p : Char → Bool) (lo hi : Nat) (s : List Char) :
    List (List Char × List Char) :=
  let m := min hi (s.takeWhile p).length
  ((List.range (m + 1)).reverse.filter (lo ≤ ·)).map fun n => (s.take n, s.drop n)

/-- Model of `re.search`: try the pattern matcher at every position, left to
right, returning the first successful match. -/
def reSearch {α : Type} (f : List Char → Option α) : List Char → Option α
  | [] => f []
  | c :: rest =>
    match f (c :: rest) with
    | some r => some r
    | none => reSearch f rest

/-- Capture groups of pattern `(\d\x7b1,2\x7d)[.-slash](\d\x7b1,2\x7d)[.-slash](\d\x7b4\x7d)`
anchored at the start of the input. -/
def matchNumDMYAt (s : List Char) : Option (List Char × List Char × List Char) :=
  (repOpts isDigitCh 1 2 s).findSome? fun g1 =>
    match g1.2 with
    | [] => none
    | c :: r1 =>
      if c = '.' || c = '-' || c = '/' then
        (repOpts isDigitCh 1 2 r1).findSome? fun g2 =>
          match g2.2 with
          | [] => none
          | c2 :: r2 =>
            if c2 = '.' || c2 = '-' || c2 = '/' then
              (repOpts isDigitCh 4 4 r2).findSome? fun g3 =>
                some (g1.1, g2.1, g3.1)
            else none
      else none

/-- Capture groups of pattern `(\d\x7b4\x7d)[.-slash](\d\x7b1,2\x7d)[.-slash](\d\x7b1,2\x7d)`
anchored at the start of the input. -/
def matchNumYMDAt (s : List Char) : Option (List Char × List Char × List Char) :=
  (repOpts isDigitCh 4 4 s).findSome? fun g1 =>
    match g1.2 with
    | [] => none
    | c :: r1 =>
      if c = '.' || c = '-' || c = '/' then
        (repOpts isDigitCh 1 2 r1).findSome? fun g2 =>
          match g2.2 with
          | [] => none
          | c2 :: r2 =>
            if c2 = '.' || c2 = '-' || c2 = '/' then
              (repOpts isDigitCh 1 2 r2).findSome? fun g3 =>
                some (g1.1, g2.1, g3.1)
            else none
      else none

/-- Capture groups of pattern `(\d\x7b1,2\x7d)\s+([а-яА-Я]+)\s+(\d\x7b4\x7d)`
anchored at the start of the input. -/
def matchDayCyrYearAt (s : List Char) : Option (List Char × List Char × List Char) :=
  (repOpts isDigitCh 1 2 s).findSome? fun g1 =>
    (repOpts isPyWs 1 g1.2.length g1.2).findSome? fun w1 =>
      (repOpts isCyrDateCh 1 w1.2.length w1.2).findSome? fun g2 =>
        (repOpts isPyWs 1 g2.2.length g2.2).findSome? fun w2 =>
          (repOpts isDigitCh 4 4 w2.2).findSome? fun g3 =>
            some (g1.1, g2.1, g3.1)

/-- Capture groups of pattern `(\d\x7b1,2\x7d)\s+([а-яА-Я]+)` anchored at the
start of the input. -/
def matchDayCyrAt (s : List Char) : Option (List Char × List Char) :=
  (repOpts isDigitCh 1 2 s).findSome? fun g1 =>
    (repOpts isPyWs 1 g1.2.length g1.2).findSome? fun w1 =>
      (repOpts isCyrDateCh 1 w1.2.length w1.2).findSome? fun g2 =>
        some (g1.1, g2.1)

/-- The `self.months` lookup table, in dict insertion order
(parser.py lines 126-139). -/
def monthsTable : List (String × Nat) :=
  [("янв", 1), ("января", 1), ("январь", 1),
   ("фев", 2), ("февраля", 2), ("февраль", 2),
   ("мар", 3), ("марта", 3), ("март", 3),
   ("апр", 4), ("апреля", 4), ("апрель", 4),
   ("мая", 5), ("май", 5),
   ("июн", 6), ("июня", 6), ("июнь", 6),
   ("июл", 7), ("июля", 7), ("июль", 7),
   ("авг", 8), ("августа", 8), ("август", 8),
   ("сен", 9), ("сентября", 9), ("сентябрь", 9),
   ("окт", 10), ("октября", 10), ("октябрь", 10),
   ("ноя", 11), ("ноября", 11), ("ноябрь", 11),
   ("дек", 12), ("декабря", 12), ("декабрь", 12)]

/-- The month-name lookup of the two-group branch: first table key that is a
substring of the lowercased captured month word wins. -/
def monthLookup (monthStr : List Char) : Option Nat :=
  monthsTable.findSome? fun kn =>
    if containsSub kn.1.data monthStr then some kn.2 else none

/-- Pattern family 1 as the code runs it: leftmost match of the numeric DMY
regex, then `int` conversion of the groups and the `datetime` constructor;
any failure falls through to the next pattern. -/
def tryPatternDMY (s : String) : Option PyDateTime :=
  match reSearch matchNumDMYAt s.data with
  | none => none
  | some (g1, g2, g3) =>
    match strToNatOpt g1, strToNatOpt g2, strToNatOpt g3 with
    | some d, some m, some y => mkDatetime y m d
    | _, _, _ => none

/-- Pattern family 2: leftmost match of the numeric YMD regex (the pattern
starting with `(\d\x7b4\x7d)`, so groups are read year, month, day). -/
def tryPatternYMD (s : String) : Option PyDateTime :=
  match reSearch matchNumYMDAt s.data with
  | none => none
  | some (g1, g2, g3) =>
    match strToNatOpt g1, strToNatOpt g2, strToNatOpt g3 with
    | some y, some m, some d => mkDatetime y m d
    | _, _, _ => none

/-- Pattern family 3 (day + Cyrillic month + year): the code reaches
`day, month, year = map(int, groups)` whose `int` on the Cyrillic month
group raises `ValueError`, so this attempt can only fall through. -/
def tryPatternDayCyrYear (s : String) : Option PyDateTime :=
  match reSearch matchDayCyrYearAt s.data with
  | none => none
  | some (g1, g2, g3) =>
    match strToNatOpt g1, strToNatOpt g2, strToNatOpt g3 with
    | some d, some m, some y => mkDatetime y m d
    | _, _, _ => none

/-- Pattern family 4 (day + Cyrillic month, two capture groups): day via
`int`, month via the substring lookup, year taken from `current_year`. -/
def tryPatternDayCyr (s : String) (currentYear : Nat) : Option PyDateTime :=
  match reSearch matchDayCyrAt s.data with
  | none => none
  | some (g1, g2) =>
    match strToNatOpt g1 with
    | none => none
    | some d =>
      match monthLookup (pyLower ⟨g2⟩).data with
      | none => none
      | some m => mkDatetime currentYear m d

/-- Model of `datetime.fromisoformat`, restricted to the `YYYY-MM-DD` date
form (every time-carrying ISO string the code could see is already consumed
by the numeric YMD pattern before this fallback runs). -/
def isoParse (s : String) : Option PyDateTime :=
  match s.data with
  | [y1, y2, y3, y4, '-', m1, m2, '-', d1, d2] =>
    if [y1, y2, y3, y4, m1, m2, d1, d2].all isDigitCh then
      mkDatetime (digitsToNat [y1, y2, y3, y4]) (digitsToNat [m1, m2])
        (digitsToNat [d1, d2])
    else none
  | _ => none

/-- Model of `EventParser._parse_date_string` (parser.py lines 195-232):
the four patterns of `self.date_patterns` are tried in order; a match whose
group handling fails (`ValueError` from `int` or from `datetime`) falls
through to the next pattern; `datetime.fromisoformat` is the last resort.
The `current_year` default (`datetime.now().year`) is passed explicitly. -/
def parse_date_string (s : String) (currentYear : Nat) : Option PyDateTime :=
  match tryPatternDMY s with
  | some dt => some dt
  | none =>
    match tryPatternYMD s with
    | some dt => some dt
    | none =>
      match tryPatternDayCyrYear s with
      | some dt => some dt
      | none =>
        match tryPatternDayCyr s currentYear with
        | some dt => some dt
        | none => isoParse s

/-- Model of the Start Date normalization step of `EventParser.parse`
(parser.py lines 309-313): a truthy raw date that parses is re-serialized
with `strftime("%d.%m.%Y")` and its resolved value recorded in
`Parsed Date`; otherwise both are left as they were. -/
def normalize_start_date (raw : String) (currentYear : Nat) :
    String × Option PyDateTime :=
  if raw = "" then (raw, none)
  else
    match parse_date_string raw currentYear with
    | some dt => (strftimeDMY dt, some dt)
    | none => (raw, none)

example : parse_date_string "25.12.2024" 2030 = some ⟨2024, 12, 25, 0⟩ := by decide
example : strftimeDMY ⟨2024, 12, 25, 0⟩ = "25.12.2024" := by decide
example : parse_date_string "5 марта" 2025 = some ⟨2025, 3, 5, 0⟩ := by decide
example : parse_date_string "not a date" 2025 = none := by decide
example : parse_date_string "2024-12-25" 2030 = some ⟨2024, 12, 25, 0⟩ := by decide
example : parse_date_string "5 марта 2024" 2025 = some ⟨2025, 3, 5, 0⟩ := by decide
example : parse_date_string "31.02.2024" 2025 = none := by decide

/-! ## `EventParser._parse_llm_response` (parser.py lines 181-193)

`json.loads` is modelled by a recursive-descent parser for JSON values;
numeric literals are restricted to integers (the prompt contract requests
string fields only, and no claim exercises floats). -/

inductive PyJson where
  | null
  | bool (b : Bool)
  | num (n : Int)
  | str (s : String)
  | arr (elems : List PyJson)
  | obj (members : List (String × PyJson))
deriving Repr

/-- JSON whitespace accepted by `json.loads` between tokens. -/
def skipWsJ (l : List Char) : List Char :=
  l.dropWhile fun c => c = ' ' || c = '\t' || c = '\n' || c = '\x0d'

def hexDigitVal (c : Char) : Option Nat :=
  if isDigitCh c then some (c.toNat - '0'.toNat)
  else if decide ('a' ≤ c) && decide (c ≤ 'f') then some (c.toNat - 'a'.toNat + 10)
  else if decide ('A' ≤ c) && decide (c ≤ 'F') then some (c.toNat - 'A'.toNat + 10)
  else none

/-- Body of a JSON string literal (after the opening quote): returns the
decoded characters and the input after the closing quote. -/
def parseJStrBody : Nat → List Char → Option (List Char × List Char)
  | 0, _ => none
  | _, [] => none
  | fuel + 1, c :: rest =>
    if c = '"' then some ([], rest)
    else if c = '\\' then
      match rest with
      | [] => none
      | e :: rest2 =>
        let dec : Option (Char × List Char) :=
          if e = '"' then some ('"', rest2)
          else if e = '\\' then some ('\\', rest2)
          else if e = '/' then some ('/', rest2)
          else if e = 'b' then some ('\x08', rest2)
          else if e = 'f' then some ('\x0c', rest2)
          else if e = 'n' then some ('\n', rest2)
          else if e = 'r' then some ('\x0d', rest2)
          else if e = 't' then some ('\t', rest2)
          else if e = 'u' then
            match rest2 with
            | h1 :: h2 :: h3 :: h4 :: rest3 =>
              match hexDigitVal h1, hexDigitVal h2, hexDigitVal h3, hexDigitVal h4 with
              | some a, some b, some c2, some d =>
                some (Char.ofNat (((a * 16 + b) * 16 + c2) * 16 + d), rest3)
              | _, _, _, _ => none
            | _ => none
          else none
        match dec with
        | none => none
        | some (ch, r) =>
          match parseJStrBody fuel r with
          | some (cs, rr) => some (ch :: cs, rr)
          | none => none
    else
      match parseJStrBody fuel rest with
      | some (cs, rr) => some (c :: cs, rr)
      | none => none

/-- JSON integer literal (optional sign, no leading zeros). -/
def parseJInt (l : List Char) : Option (Int × List Char) :=
  let core : List Char → Option (Nat × List Char) := fun l2 =>
    let ds := l2.takeWhile isDigitCh
    if ds = [] then none
    else if 2 ≤ ds.length && ds.headI = '0' then none
    else some (digitsToNat ds, l2.drop ds.length)
  match l with
  | '-' :: rest =>
    match core rest with
    | some (n, r) => some (-(n : Int), r)
    | none => none
  | _ =>
    match core l with
    | some (n, r) => some ((n : Int), r)
    | none => none

mutual

/-- JSON value parser (input must start at the value's first character). -/
def parseJVal : Nat → List Char → Option (PyJson × List Char)
  | 0, _ => none
  | fuel + 1, l =>
    match l with
    | [] => none
    | 'n' :: 'u' :: 'l' :: 'l' :: r => some (.null, r)
    | 't' :: 'r' :: 'u' :: 'e' :: r => some (.bool true, r)
    | 'f' :: 'a' :: 'l' :: 's' :: 'e' :: r => some (.bool false, r)
    | '"' :: r =>
      match parseJStrBody (r.length + 1) r with
      | some (cs, rr) => some (.str ⟨cs⟩, rr)
      | none => none
    | '\x7b' :: r =>
      match skipWsJ r with
      | '\x7d' :: rr => some (.obj [], rr)
      | r2 =>
        match parseJMembers fuel r2 with
        | some (ms, rr) => some (.obj ms, rr)
        | none => none
    | '[' :: r =>
      match skipWsJ r with
      | ']' :: rr => some (.arr [], rr)
      | r2 =>
        match parseJElems fuel r2 with
        | some (es, rr) => some (.arr es, rr)
        | none => none
    | _ =>
      match parseJInt l with
      | some (n, r) => some (.num n, r)
      | none => none

/-- One-or-more object members separated by commas, consuming the closing
brace. -/
def parseJMembers : Nat → List Char → Option (List (String × PyJson) × List Char)
  | 0, _ => none
  | fuel + 1, l =>
    match l with
    | '"' :: r =>
      match parseJStrBody (r.length + 1) r with
      | none => none
      | some (key, r2) =>
        match skipWsJ r2 with
        | ':' :: r3 =>
          match parseJVal fuel (skipWsJ r3) with
          | none => none
          | some (v, r4) =>
            match skipWsJ r4 with
            | ',' :: r5 =>
              match parseJMembers fuel (skipWsJ r5) with
              | some (ms, rr) => some ((⟨key⟩, v) :: ms, rr)
              | none => none
            | '\x7d' :: rr => some ([(⟨key⟩, v)], rr)
            | _ => none
        | _ => none
    | _ => none

/-- One-or-more array elements separated by commas, consuming the closing
bracket. -/
def parseJElems : Nat → List Char → Option (List PyJson × List Char)
  | 0, _ => none
  | fuel + 1, l =>
    match parseJVal fuel l with
    | none => none
    | some (v, r) =>
      match skipWsJ r with
      | ',' :: r2 =>
        match parseJElems fuel (skipWsJ r2) with
        | some (es, rr) => some (v :: es, rr)
        | none => none
      | ']' :: rr => some ([v], rr)
      | _ => none

end

/-- Model of `json.loads` on a full document: leading and trailing
whitespace allowed, anything else trailing is a decode error. -/
def jsonLoads (s : String) : Option PyJson :=
  match parseJVal (2 * s.data.length + 8) (skipWsJ s.data) with
  | some (v, rest) => if skipWsJ rest = [] then some v else none
  | none => none

/-- Model of `re.search(r'\x7b.*\x7d', response, re.DOTALL)`: with the greedy
quantifier the match runs from the first opening brace to the last closing
brace of the whole text (when that span is nonempty). -/
def braceSpan (s : String) : Option String :=
  let cs := s.data
  let tl := cs.drop (cs.takeWhile (· ≠ '\x7b')).length
  match tl with
  | [] => none
  | _ :: _ =>
    let m := tl.length - (tl.reverse.takeWhile (· ≠ '\x7d')).length
    if 2 ≤ m then some ⟨tl.take m⟩ else none

/-- Model of `EventParser._parse_llm_response` (parser.py lines 181-193):
direct decode, then decode of the brace-delimited span, then the empty
mapping. -/
def parse_llm_response (response : String) : PyJson :=
  match jsonLoads response with
  | some v => v
  | none =>
    match braceSpan response with
    | some sub =>
      match jsonLoads sub with
      | some v => v
      | none => PyJson.obj []
    | none => PyJson.obj []

example :
    parse_llm_response "here is your data: \x7b\"Event Name\": \"X\"\x7d thanks" =
      PyJson.obj [("Event Name", PyJson.str "X")] := by rfl
example : parse_llm_response "no json here at all" = PyJson.obj [] := by rfl
example : jsonLoads "\x7b\"a\": [1, 2], \"b\": null\x7d" =
    some (PyJson.obj [("a", PyJson.arr [PyJson.num 1, PyJson.num 2]),
      ("b", PyJson.null)]) := by rfl

/-! ## `DuckDuckGoSearch._clean_url` and `_is_ru_domain` (parser.py 37-66) -/

/-- Percent-decoding tokenizer for `urllib.parse.unquote`: a `%` followed by
two hex digits becomes a decoded byte, anything else stays a literal
character. -/
def pctTokens : List Char → List (Char ⊕ Nat)
  | [] => []
  | '%' :: h1 :: h2 :: rest =>
    match hexDigitVal h1, hexDigitVal h2 with
    | some a, some b => Sum.inr (16 * a + b) :: pctTokens rest
    | _, _ => Sum.inl '%' :: pctTokens (h1 :: h2 :: rest)
  | c :: rest => Sum.inl c :: pctTokens rest

/-- UTF-8 decoding of a byte run with U+FFFD replacement on malformed
sequences (the `errors="replace"` behaviour `unquote` uses); the fuel is
an upper bound on the number of decoding steps. -/
def utf8DecF : Nat → List Nat → List Char
  | 0, _ => []
  | _, [] => []
  | fuel + 1, b :: bs =>
    if b < 0x80 then Char.ofNat b :: utf8DecF fuel bs
    else if 0xC2 ≤ b && b ≤ 0xDF then
      match bs with
      | b2 :: bs2 =>
        if 0x80 ≤ b2 && b2 ≤ 0xBF then
          Char.ofNat ((b - 0xC0) * 64 + (b2 - 0x80)) :: utf8DecF fuel bs2
        else '�' :: utf8DecF fuel bs
      | [] => ['�']
    else if 0xE0 ≤ b && b ≤ 0xEF then
      match bs with
      | b2 :: b3 :: bs3 =>
        if 0x80 ≤ b2 && b2 ≤ 0xBF && 0x80 ≤ b3 && b3 ≤ 0xBF then
          Char.ofNat (((b - 0xE0) * 64 + (b2 - 0x80)) * 64 + (b3 - 0x80)) ::
            utf8DecF fuel bs3
        else '�' :: utf8DecF fuel bs
      | _ => ['�']
    else if 0xF0 ≤ b && b ≤ 0xF4 then
      match bs with
      | b2 :: b3 :: b4 :: bs4 =>
        if 0x80 ≤ b2 && b2 ≤ 0xBF && 0x80 ≤ b3 && b3 ≤ 0xBF &&
            0x80 ≤ b4 && b4 ≤ 0xBF then
          Char.ofNat ((((b - 0xF0) * 64 + (b2 - 0x80)) * 64 + (b3 - 0x80)) * 64 +
            (b4 - 0x80)) :: utf8DecF fuel bs4
        else '�' :: utf8DecF fuel bs
      | _ => ['�']
    else '�' :: utf8DecF fuel bs

def utf8Dec (l : List Nat) : List Char := utf8DecF (l.length + 1) l

/-- Maximal leading run of decoded bytes among the tokens. -/
def takeByteRun : List (Char ⊕ Nat) → List Nat × List (Char ⊕ Nat)
  | Sum.inr b :: rest =>
    let p := takeByteRun rest
    (b :: p.1, p.2)
  | l => ([], l)

/-- Emit the token stream: literal characters pass through, maximal byte
runs are UTF-8 decoded together (fuel is the token count). -/
def emitTokens : Nat → List (Char ⊕ Nat) → List Char
  | 0, _ => []
  | _, [] => []
  | fuel + 1, Sum.inl c :: rest => c :: emitTokens fuel rest
  | fuel + 1, Sum.inr b :: rest =>
    let p := takeByteRun rest
    utf8Dec (b :: p.1) ++ emitTokens fuel p.2

/-- Model of `urllib.parse.unquote`. -/
def pyUnquote (s : String) : String :=
  ⟨emitTokens (s.data.length + 1) (pctTokens s.data)⟩

/-- Pattern `uddg=([^&]+)` anchored at the start of the input. -/
def matchUddgAt (l : List Char) : Option (List Char) :=
  if "uddg=".data.isPrefixOf l then
    let cap := (l.drop 5).takeWhile (· ≠ '&')
    if cap = [] then none else some cap
  else none

/-- Model of `re.search(r'uddg=([^&]+)', raw_url)`. -/
def extractUddg (s : String) : Option String :=
  match reSearch matchUddgAt s.data with
  | some cap => some ⟨cap⟩
  | none => none

/-- Model of `urlparse(u).netloc` for the strings reaching it here: callers
have already established an explicit `http`/`https` scheme, under which the
netloc is everything between the `//` and the next `/`, `?` or `#`;
scheme-less strings give an empty netloc as `urlparse` does. -/
def urlNetloc (u : String) : String :=
  if "http://".data.isPrefixOf u.data then
    ⟨(u.data.drop 7).takeWhile fun c => c ≠ '/' && c ≠ '?' && c ≠ '#'⟩
  else if "https://".data.isPrefixOf u.data then
    ⟨(u.data.drop 8).takeWhile fun c => c ≠ '/' && c ≠ '?' && c ≠ '#'⟩
  else ""

def isHttpUrl (u : String) : Bool :=
  "http://".data.isPrefixOf u.data || "https://".data.isPrefixOf u.data

/-- The validation half of `DuckDuckGoSearch._clean_url` (parser.py lines
53-64): strip whitespace, then require an absolute http(s) URL with a
nonempty host not containing a denylisted name. -/
def clean_url_validate (r0 : String) : Option String :=
  let r := pyStrip r0
  if !isHttpUrl r then none
  else
    let netloc := urlNetloc r
    if netloc = "" then none
    else if strContains netloc "duckduckgo" || strContains netloc "yandex" ||
        strContains netloc "google" || strContains netloc "vk" then none
    else some r

/-- Model of `DuckDuckGoSearch._clean_url` (parser.py lines 46-66):
unwrap a search-engine redirect wrapper, then validate. -/
def clean_url (rawUrl : String) : Option String :=
  clean_url_validate
    (if strContains rawUrl "duckduckgo.com/l/?uddg=" then
      match extractUddg rawUrl with
      | some cap => pyUnquote cap
      | none => rawUrl
    else rawUrl)

/-- The TLD allow-list of `_is_ru_domain` (parser.py line 41). -/
def allowedTlds : List String :=
  [".ru", ".su", ".рф", ".moscow", ".tech", ".com", ".org", ".net"]

/-- Model of `DuckDuckGoSearch._is_ru_domain` (parser.py lines 37-44).
Note the code's `f".\x7btld\x7d"` doubles the dot, so the containment
disjunct looks for `..ru` and the like. -/
def is_ru_domain (u : String) : Bool :=
  let domain := pyLower (urlNetloc u)
  allowedTlds.any fun tld =>
    tld.data.isSuffixOf domain.data || containsSub ("." ++ tld).data domain.data

example : clean_url " https://example.ru/event " = some "https://example.ru/event" := by
  decide
example : clean_url "https://duckduckgo.com/l/?uddg=https%3A%2F%2Fexample.ru%2Fevent&rut=ab" =
    some "https://example.ru/event" := by decide
example : clean_url "ftp://example.ru" = none := by decide
example : clean_url "https://www.google.com/x" = none := by decide
example : is_ru_domain "https://example.ru/event" = true := by decide
example : is_ru_domain "https://example.de/x" = false := by decide

/-! ## `DuckDuckGoSearch` cache state and `search` (parser.py 17-110) -/

/-- State of a `DuckDuckGoSearch` instance: the `OrderedDict` cache as an
insertion-ordered association list, the timestamp dict, and the
configuration taken by `__init__` (parser.py lines 18-22).  Timestamps live
on a seconds timeline (`total_seconds` of `datetime` differences). -/
structure SearchState where
  cache : List (String × List String)
  cacheTimestamps : List (String × Int)
  cacheTtl : Int
  cacheSize : Nat
deriving Repr, DecidableEq

/-- Model of `DuckDuckGoSearch.__init__(cache_size, cache_ttl)`. -/
def initSearchState (cacheSize : Nat) (cacheTtl : Int) : SearchState :=
  ⟨[], [], cacheTtl, cacheSize⟩

/-- Dict assignment `d[k] = v` on an insertion-ordered association list:
update in place when the key exists, append at the end otherwise (the
`OrderedDict` behaviour). -/
def odSet {β : Type} (l : List (String × β)) (k : String) (v : β) :
    List (String × β) :=
  match l with
  | [] => [(k, v)]
  | (k0, v0) :: rest => if k0 = k then (k, v) :: rest else (k0, v0) :: odSet rest k v

/-- Dict lookup `d.get(k)`. -/
def odGet {β : Type} (l : List (String × β)) (k : String) : Option β :=
  (l.find? fun p => p.1 == k).map (·.2)

/-- Model of `datetime.min` (the `.get` default for a missing timestamp) on
the seconds-since-Unix-epoch timeline: 0001-01-01 is −62135596800. -/
def pyDatetimeMin : Int := -62135596800

/-- The cache-hit condition of `DuckDuckGoSearch.search` (parser.py line
70): key present and entry age strictly below the TTL. -/
def cacheHit (st : SearchState) (key : String) (now : Int) : Bool :=
  (odGet st.cache key).isSome &&
    decide (now - ((odGet st.cacheTimestamps key).getD pyDatetimeMin) < st.cacheTtl)

/-- Outcome of the network POST inside `search`'s `try` block: `fail`
models any raised exception (network error, `raise_for_status`), `ok`
carries the hrefs of the primary `result__a` anchors and of the fallback
regex scan over the raw response body. -/
inductive FetchOutcome where
  | fail
  | ok (primary fallback : List String)
deriving Repr, DecidableEq

/-- The result-collection loop shared by both phases of `search`
(parser.py lines 86-102): skip falsy hrefs, clean, de-duplicate via the
`seen` set, keep only allow-listed domains. -/
def collectLinks : List String → List String → List String → List String × List String
  | [], urls, seen => (urls, seen)
  | href :: rest, urls, seen =>
    if href = "" then collectLinks rest urls seen
    else
      match clean_url href with
      | none => collectLinks rest urls seen
      | some c =>
        if c ∈ seen then collectLinks rest urls seen
        else if is_ru_domain c then collectLinks rest (urls ++ [c]) (c :: seen)
        else collectLinks rest urls seen

/-- The body of `search`'s `try` block: primary anchors first; when they
yield no URL, the permissive fallback scan is processed with the same
cleaning, filtering and `seen` set. -/
def processLinks (primary fallback : List String) : List String :=
  let p := collectLinks primary [] []
  if p.1 = [] then (collectLinks fallback p.1 p.2).1 else p.1

/-- Model of `DuckDuckGoSearch.search` (parser.py lines 68-110).  The cache
key (in the code a SHA-256 digest of the normalized query, computed by
`_generate_cache_key`) and the current time are explicit inputs; the
network attempt is the explicit `FetchOutcome`.  Returns the URL list and
the successor state. -/
def ddg_search (st : SearchState) (key : String) (now : Int) (fetch : FetchOutcome) :
    List String × SearchState :=
  if cacheHit st key now then ((odGet st.cache key).getD [], st)
  else
    match fetch with
    | .fail => ([], st)
    | .ok primary fallback =>
      let result := (processLinks primary fallback).take 10
      (result,
        ⟨odSet st.cache key result, odSet st.cacheTimestamps key now,
          st.cacheTtl, st.cacheSize⟩)

/-! ## `parse_events` orchestrator (parser.py 325-369) -/

/-- The slice of the per-URL record the orchestrator's accept/reject logic
reads: `data['Event Name']` and `data['Parsed Date']` (`none` models the
falsy empty-string default). -/
structure EventData where
  eventName : String
  parsedDate : Option PyDateTime
deriving Repr, DecidableEq

/-- Terminal information about one processed URL: `ok` is the record
produced by `EventParser.parse`, `err` models any exception caught by the
per-URL handler (parser.py lines 364-366). -/
inductive URLOutcome where
  | ok (e : EventData)
  | err
deriving Repr, DecidableEq

/-- The per-URL accept/reject decision of the `parse_events` loop
(parser.py lines 342-366): accepted iff the event name is truthy and
valid and the parsed date, when present, is not strictly before `today`. -/
def urlDecision (today : PyDateTime) : URLOutcome → Option EventData
  | .err => none
  | .ok e =>
    if e.eventName = "" || !is_valid_title e.eventName then none
    else
      match e.parsedDate with
      | some d => if dtLt d today then none else some e
      | none => some e

/-- Model of the loop of `parse_events` (parser.py lines 342-366): the
accepted records in processing order, together with the number of
`time.sleep(1)` politeness delays executed (the sleep sits in the accept
branch, after the append).  `today` is `datetime.now()` captured at
pipeline start (line 326). -/
def parse_events (today : PyDateTime) : List URLOutcome → List EventData × Nat
  | [] => ([], 0)
  | o :: rest =>
    match urlDecision today o with
    | some e =>
      let p := parse_events today rest
      (e :: p.1, p.2 + 1)
    | none => parse_events today rest

/-! ## `GET_EVENTS` query rewrite (parser.py 371-378) -/

/-- Model of Python `query.split(" ")`: split on every single space
character, keeping empty segments. -/
def pySplitSpace : List Char → List (List Char)
  | [] => [[]]
  | c :: rest =>
    if c = ' ' then [] :: pySplitSpace rest
    else
      match pySplitSpace rest with
      | seg :: segs => (c :: seg) :: segs
      | [] => [[c]]

/-- Model of the query rewrite at the top of `GET_EVENTS` (parser.py lines
372-375): fewer than 3 space-split segments prefixes the fixed
locale/domain template. -/
def act_query (query : String) : String :=
  if (pySplitSpace query.data).length < 3 then
    "IT-мероприятия в Санкт-Петербурге для " ++ query
  else query

/-- Whitespace-delimited words of a string: the plain-language notion of
"word" (maximal nonempty runs of non-whitespace characters), as computed
by Python's argumentless `str.split()`. -/
def wordsOf : List Char → List (List Char)
  | [] => []
  | c :: rest =>
    let ws := wordsOf rest
    if isPyWs c then ws
    else
      match rest with
      | [] => [[c]]
      | c2 :: _ =>
        if isPyWs c2 then [c] :: ws
        else
          match ws with
          | w :: ws2 => (c :: w) :: ws2
          | [] => [[c]]

example : act_query "ab" = "IT-мероприятия в Санкт-Петербурге для ab" := by decide
example : act_query "один два три" = "один два три" := by decide
example : act_query "ab  cd" = "ab  cd" := by decide
example : (wordsOf "ab  cd".data).length = 2 := by decide
example : (pySplitSpace "".data).length = 1 := by decide

/-! ## Specification-side notions used by the claims -/

/-- An "already-clean absolute http(s) URL" in the sense of the spec's
idempotence property: no redirect-wrapper marker, no surrounding
whitespace, an explicit http(s) scheme, and a nonempty host containing no
denylisted engine/aggregator name. -/
def alreadyCleanUrl (u : String) : Bool :=
  !strContains u "duckduckgo.com/l/?uddg=" && pyStrip u = u && isHttpUrl u &&
    urlNetloc u ≠ "" &&
    !(strContains (urlNetloc u) "duckduckgo" || strContains (urlNetloc u) "yandex" ||
      strContains (urlNetloc u) "google" || strContains (urlNetloc u) "vk")

/-- First-occurrence de-duplication of a candidate stream, skipping
anything already in `seen`: the specification-level shape of the URL
collection loop (order of first appearance). -/
def dedupFrom (seen : List String) : List String → List String
  | [] => []
  | x :: rest =>
    if x ∈ seen then dedupFrom seen rest
    else x :: dedupFrom (x :: seen) rest

/-- The candidates a link list contributes before de-duplication: truthy
hrefs that clean successfully and pass the domain allow-list. -/
def linkCandidates (links : List String) : List String :=
  links.filterMap fun href =>
    if href = "" then none
    else
      match clean_url href with
      | some c => if is_ru_domain c then some c else none
      | none => none

/-- The C8 contract on a returned URL list: at most 10 entries, pairwise
distinct, all absolute http(s) URLs. -/
def goodUrlList (l : List String) : Prop :=
  l.length ≤ 10 ∧ l.Nodup ∧ ∀ u ∈ l, isHttpUrl u = true

/-- Invariant of the search cache: every stored URL list satisfies the C8
contract. -/
def cacheWellFormed (st : SearchState) : Prop :=
  ∀ p ∈ st.cache, goodUrlList p.2

/-! ## Helper lemmas -/

/-- A mojibake run is detected iff three consecutive mojibake characters
occur somewhere in the list. -/
theorem hasMojibakeRun_iff (l : List Char) :
    hasMojibakeRun l = true ↔
      ∃ pre a b c suf, l = pre ++ a :: b :: c :: suf ∧
        isMojibakeCh a = true ∧ isMojibakeCh b = true ∧ isMojibakeCh c = true := by
  induction l with
  | nil =>
    simp only [hasMojibakeRun]
    constructor
    · intro h; exact absurd h (by simp)
    · rintro ⟨pre, a, b, c, suf, h, -⟩
      have := congrArg List.length h
      simp at this
      omega
  | cons c1 t ih =>
    match t, ih with
    | [], _ =>
      simp only [hasMojibakeRun]
      constructor
      · intro h; exact absurd h (by simp)
      · rintro ⟨pre, a, b, c, suf, h, -⟩
        have := congrArg List.length h
        simp at this
        omega
    | [c2], _ =>
      simp only [hasMojibakeRun]
      constructor
      · intro h; exact absurd h (by simp)
      · rintro ⟨pre, a, b, c, suf, h, -⟩
        have := congrArg List.length h
        simp at this
        omega
    | c2 :: c3 :: rest, ih =>
      constructor
      · intro h
        rw [show hasMojibakeRun (c1 :: c2 :: c3 :: rest) =
            ((isMojibakeCh c1 && isMojibakeCh c2 && isMojibakeCh c3) ||
              hasMojibakeRun (c2 :: c3 :: rest)) from rfl] at h
        rcases Bool.or_eq_true_iff.mp h with h1 | h2
        · refine ⟨[], c1, c2, c3, rest, rfl, ?_, ?_, ?_⟩ <;>
            simp_all [Bool.and_eq_true]
        · obtain ⟨pre, a, b, c, suf, heq, ha, hb, hc⟩ := ih.mp h2
          exact ⟨c1 :: pre, a, b, c, suf, by rw [heq]; rfl, ha, hb, hc⟩
      · rintro ⟨pre, a, b, c, suf, heq, ha, hb, hc⟩
        rw [show hasMojibakeRun (c1 :: c2 :: c3 :: rest) =
            ((isMojibakeCh c1 && isMojibakeCh c2 && isMojibakeCh c3) ||
              hasMojibakeRun (c2 :: c3 :: rest)) from rfl]
        match pre, heq with
        | [], heq =>
          obtain ⟨h1, h2, h3, -⟩ : c1 = a ∧ c2 = b ∧ c3 = c ∧ rest = suf := by
            simpa using heq
          subst h1; subst h2; subst h3
          simp [ha, hb, hc]
        | p :: pre2, heq =>
          rw [List.cons_append, List.cons.injEq] at heq
          have := ih.mpr ⟨pre2, a, b, c, suf, heq.2, ha, hb, hc⟩
          simp [this]

/-- Characterization of title rejection, used by the C5 theorem. -/
theorem is_valid_title_eq_false_iff (t : String) :
    is_valid_title t = false ↔
      (t.data.length < 5 ∨
        ((∀ c ∈ t.data, isCyrillicCh c = false) ∧ (∀ c ∈ t.data, isLatinCh c = false)) ∨
        (∃ pre a b c suf, t.data = pre ++ a :: b :: c :: suf ∧
          isMojibakeCh a = true ∧ isMojibakeCh b = true ∧ isMojibakeCh c = true)) := by
  by_cases hlen : t.data.length < 5
  · constructor
    · intro _
      exact Or.inl hlen
    · intro _
      unfold is_valid_title
      rw [if_pos]
      exact Bool.or_eq_true_iff.mpr (Or.inr (decide_eq_true hlen))
  · have hne : t ≠ "" := by
      intro h
      rw [h] at hlen
      exact hlen (by decide)
    have hcond : ¬((decide (t = "") || decide (t.data.length < 5)) = true) := by
      rw [decide_eq_false hne, decide_eq_false hlen]
      simp
    have hbody : is_valid_title t =
        ((t.data.any isCyrillicCh || t.data.any isLatinCh) && !hasMojibakeRun t.data) := by
      unfold is_valid_title
      rw [if_neg hcond]
    rw [hbody]
    constructor
    · intro h
      by_cases hrun : hasMojibakeRun t.data = true
      · exact Or.inr (Or.inr ((hasMojibakeRun_iff _).mp hrun))
      · have hrunf : hasMojibakeRun t.data = false := Bool.eq_false_iff.mpr hrun
        rw [hrunf] at h
        have hor : (t.data.any isCyrillicCh || t.data.any isLatinCh) = false := by
          simpa using h
        refine Or.inr (Or.inl ⟨?_, ?_⟩)
        · intro c hc
          by_contra hx
          have hx2 : isCyrillicCh c = true := Bool.eq_false_iff.not_left.mp hx
          have : t.data.any isCyrillicCh = true := List.any_eq_true.mpr ⟨c, hc, hx2⟩
          rw [this] at hor
          simp at hor
        · intro c hc
          by_contra hx
          have hx2 : isLatinCh c = true := Bool.eq_false_iff.not_left.mp hx
          have : t.data.any isLatinCh = true := List.any_eq_true.mpr ⟨c, hc, hx2⟩
          rw [this] at hor
          simp at hor
    · intro h
      rcases h with h | ⟨hcy, hla⟩ | hrun
      · exact absurd h hlen
      · have h1 : t.data.any isCyrillicCh = false := by
          rw [Bool.eq_false_iff]
          intro hx
          obtain ⟨c, hc, hcx⟩ := List.any_eq_true.mp hx
          rw [hcy c hc] at hcx
          exact Bool.false_ne_true hcx
        have h2 : t.data.any isLatinCh = false := by
          rw [Bool.eq_false_iff]
          intro hx
          obtain ⟨c, hc, hcx⟩ := List.any_eq_true.mp hx
          rw [hla c hc] at hcx
          exact Bool.false_ne_true hcx
        rw [h1, h2]
        rfl
      · have := (hasMojibakeRun_iff t.data).mpr hrun
        rw [this]
        simp

/-! ## Claim theorems -/

/-- C5: the title validator rejects a text if and only if it is empty or
under 5 characters, or contains no Cyrillic and no Latin letter, or
contains a run of 3 or more consecutive mojibake-pattern characters; in
particular "ab" and the empty string are invalid, "Конференция по AI" is
valid, and a string of 5 repeated mojibake-pattern characters is invalid. -/
theorem C5_title_validator :
    (∀ t : String, is_valid_title t = false ↔
      (t.data.length < 5 ∨
        ((∀ c ∈ t.data, isCyrillicCh c = false) ∧ (∀ c ∈ t.data, isLatinCh c = false)) ∨
        (∃ pre a b c suf, t.data = pre ++ a :: b :: c :: suf ∧
          isMojibakeCh a = true ∧ isMojibakeCh b = true ∧ isMojibakeCh c = true))) ∧
    is_valid_title "ab" = false ∧
    is_valid_title "Конференция по AI" = true ∧
    is_valid_title "ÐÑÐÑÐ" = false ∧
    is_valid_title "" = false :=
  ⟨is_valid_title_eq_false_iff, by decide, by decide, by decide, by decide⟩

/-- C6: the date normalizer tries its pattern families in the fixed order
(numeric DMY, numeric YMD, day + Cyrillic month + year, day + Cyrillic
month with the fallback year, then the ISO last resort), returns absent
exactly when every attempt fails, and a resolved date is re-serialized as
DD.MM.YYYY; with the spec's round-trip instances. -/
theorem C6_date_normalizer :
    (∀ s cy, parse_date_string s cy =
      ((((tryPatternDMY s).orElse fun _ => tryPatternYMD s).orElse fun _ =>
        tryPatternDayCyrYear s).orElse fun _ =>
        tryPatternDayCyr s cy).orElse fun _ => isoParse s) ∧
    (∀ s cy, parse_date_string s cy = none ↔
      tryPatternDMY s = none ∧ tryPatternYMD s = none ∧
        tryPatternDayCyrYear s = none ∧ tryPatternDayCyr s cy = none ∧
        isoParse s = none) ∧
    (∀ s cy d, parse_date_string s cy = some d →
      normalize_start_date s cy = (strftimeDMY d, some d)) ∧
    (∀ cy, parse_date_string "25.12.2024" cy = some ⟨2024, 12, 25, 0⟩) ∧
    strftimeDMY ⟨2024, 12, 25, 0⟩ = "25.12.2024" ∧
    parse_date_string "5 марта" 2025 = some ⟨2025, 3, 5, 0⟩ ∧
    (∀ cy, parse_date_string "not a date" cy = none) := by
  refine ⟨?_, ?_, ?_, fun cy => rfl, by decide, by decide, fun cy => rfl⟩
  · intro s cy
    unfold parse_date_string
    cases tryPatternDMY s <;> cases tryPatternYMD s <;>
      cases tryPatternDayCyrYear s <;> cases tryPatternDayCyr s cy <;>
      rfl
  · intro s cy
    unfold parse_date_string
    cases h1 : tryPatternDMY s <;> cases h2 : tryPatternYMD s <;>
      cases h3 : tryPatternDayCyrYear s <;> cases h4 : tryPatternDayCyr s cy <;>
      simp
  · intro s cy d h
    have hne : s ≠ "" := by
      intro he
      rw [he] at h
      exact Option.noConfusion h
    unfold normalize_start_date
    rw [if_neg hne, h]

/-- C6 witness: the re-serialization clause applied at the concrete
round-trip input. -/
theorem C6_date_normalizer_witness :
    normalize_start_date "25.12.2024" 2030 = ("25.12.2024", some ⟨2024, 12, 25, 0⟩) := by
  have h := C6_date_normalizer.2.2.1 "25.12.2024" 2030 ⟨2024, 12, 25, 0⟩ (by decide)
  rw [h]
  decide

/-- C7: the extractor first attempts a direct JSON decode, on failure
attempts to decode the brace-delimited span of the text, and on failure of
both returns the empty mapping without raising; with the spec's concrete
instances. -/
theorem C7_llm_response_policy :
    (∀ r v, jsonLoads r = some v → parse_llm_response r = v) ∧
    (∀ r sub v, jsonLoads r = none → braceSpan r = some sub →
      jsonLoads sub = some v → parse_llm_response r = v) ∧
    (∀ r, jsonLoads r = none → (braceSpan r).bind jsonLoads = none →
      parse_llm_response r = PyJson.obj []) ∧
    parse_llm_response "here is your data: \x7b\"Event Name\": \"X\"\x7d thanks" =
      PyJson.obj [("Event Name", PyJson.str "X")] ∧
    parse_llm_response "no json here at all" = PyJson.obj [] := by
  refine ⟨?_, ?_, ?_, by rfl, by rfl⟩
  · intro r v h
    unfold parse_llm_response
    rw [h]
  · intro r sub v h hb hs
    simp [parse_llm_response, h, hb, hs]
  · intro r h hb
    cases hsp : braceSpan r with
    | none => simp [parse_llm_response, h, hsp]
    | some sub =>
      rw [hsp] at hb
      have hb2 : jsonLoads sub = none := by simpa using hb
      simp [parse_llm_response, h, hsp, hb2]

/-- C7 witness: the three policy clauses applied at concrete responses. -/
theorem C7_llm_response_policy_witness :
    parse_llm_response "\x7b\"a\": \"b\"\x7d" = PyJson.obj [("a", PyJson.str "b")] ∧
    parse_llm_response "x \x7b\"a\": \"b\"\x7d y" = PyJson.obj [("a", PyJson.str "b")] ∧
    parse_llm_response "totally not json" = PyJson.obj [] :=
  ⟨C7_llm_response_policy.1 _ _ (by rfl),
   C7_llm_response_policy.2.1 _ "\x7b\"a\": \"b\"\x7d" _ (by rfl) (by rfl) (by rfl),
   C7_llm_response_policy.2.2.1 _ (by rfl) (by rfl)⟩

/-- Unpacking of the already-clean predicate. -/
theorem alreadyCleanUrl_spec (u : String) (h : alreadyCleanUrl u = true) :
    strContains u "duckduckgo.com/l/?uddg=" = false ∧ pyStrip u = u ∧
    isHttpUrl u = true ∧ urlNetloc u ≠ "" ∧
    strContains (urlNetloc u) "duckduckgo" = false ∧
    strContains (urlNetloc u) "yandex" = false ∧
    strContains (urlNetloc u) "google" = false ∧
    strContains (urlNetloc u) "vk" = false := by
  unfold alreadyCleanUrl at h
  simp only [Bool.and_eq_true, Bool.not_eq_true', Bool.or_eq_false_iff,
    decide_eq_true_eq] at h
  tauto

/-- Cleaning leaves an already-clean URL unchanged. -/
theorem clean_url_already_clean (u : String) (h : alreadyCleanUrl u = true) :
    clean_url u = some u := by
  obtain ⟨h1, h2, h3, h4, h5, h6, h7, h8⟩ := alreadyCleanUrl_spec u h
  simp [clean_url, clean_url_validate, h1, h2, h3, h4, h5, h6, h7, h8]

/-- C9: URL cleaning is idempotent — an already-clean absolute http(s) URL
is returned unchanged, and a redirect-wrapped URL whose URL-decoded
embedded target is clean is unwrapped to exactly that target. -/
theorem C9_clean_url_idempotent :
    (∀ u, alreadyCleanUrl u = true → clean_url u = some u) ∧
    (∀ r t, strContains r "duckduckgo.com/l/?uddg=" = true →
      (extractUddg r).map pyUnquote = some t → alreadyCleanUrl t = true →
      clean_url r = some t) := by
  refine ⟨clean_url_already_clean, ?_⟩
  intro r t hm hext hclean
  obtain ⟨cap, hcap, hun⟩ := Option.map_eq_some'.mp hext
  have hmt := (alreadyCleanUrl_spec t hclean).1
  have hstep : clean_url r = clean_url t := by
    simp [clean_url, hm, hcap, hun, hmt]
  rw [hstep]
  exact clean_url_already_clean t hclean

/-- C9 witness: both clauses at concrete URLs. -/
theorem C9_clean_url_idempotent_witness :
    clean_url "https://example.ru/event" = some "https://example.ru/event" ∧
    clean_url "https://duckduckgo.com/l/?uddg=https%3A%2F%2Fexample.ru%2Fevent&rut=ab" =
      some "https://example.ru/event" :=
  ⟨C9_clean_url_idempotent.1 "https://example.ru/event" (by decide),
   C9_clean_url_idempotent.2
     "https://duckduckgo.com/l/?uddg=https%3A%2F%2Fexample.ru%2Fevent&rut=ab"
     "https://example.ru/event" (by decide) (by decide) (by decide)⟩

/-- A successful validation yields an absolute http(s) URL. -/
theorem clean_url_validate_isHttp {v u : String} (h : clean_url_validate v = some u) :
    isHttpUrl u = true := by
  simp only [clean_url_validate] at h
  split at h
  · exact absurd h (by simp)
  · rename_i hcond
    split at h
    · exact absurd h (by simp)
    · split at h
      · exact absurd h (by simp)
      · obtain rfl := Option.some.inj h
        simpa using hcond

/-- A successful clean always yields an absolute http(s) URL. -/
theorem clean_url_isHttp {r u : String} (h : clean_url r = some u) :
    isHttpUrl u = true :=
  clean_url_validate_isHttp h

/-- Elements produced by `dedupFrom` come from the candidate stream. -/
theorem dedupFrom_mem {x : String} :
    ∀ (l seen : List String), x ∈ dedupFrom seen l → x ∈ l := by
  intro l
  induction l with
  | nil => intro seen h; simp [dedupFrom] at h
  | cons y rest ih =>
    intro seen h
    unfold dedupFrom at h
    split at h
    · exact List.mem_cons_of_mem y (ih seen h)
    · rcases List.mem_cons.mp h with rfl | h2
      · exact List.mem_cons_self x rest
      · exact List.mem_cons_of_mem y (ih (y :: seen) h2)

/-- `dedupFrom` avoids everything in `seen`. -/
theorem dedupFrom_not_seen {x : String} :
    ∀ (l seen : List String), x ∈ dedupFrom seen l → x ∉ seen := by
  intro l
  induction l with
  | nil => intro seen h; simp [dedupFrom] at h
  | cons y rest ih =>
    intro seen h
    unfold dedupFrom at h
    split at h
    · exact ih seen h
    · rename_i hy
      rcases List.mem_cons.mp h with rfl | h2
      · exact hy
      · intro hx
        exact ih (y :: seen) h2 (List.mem_cons_of_mem y hx)

/-- `dedupFrom` yields pairwise-distinct output. -/
theorem dedupFrom_nodup : ∀ (l seen : List String), (dedupFrom seen l).Nodup := by
  intro l
  induction l with
  | nil => intro seen; simp [dedupFrom]
  | cons y rest ih =>
    intro seen
    unfold dedupFrom
    split
    · exact ih seen
    · refine List.nodup_cons.mpr ⟨?_, ih (y :: seen)⟩
      intro hy
      exact dedupFrom_not_seen rest (y :: seen) hy (List.mem_cons_self y seen)

theorem dedupFrom_cons_mem {c : String} {seen rest : List String} (h : c ∈ seen) :
    dedupFrom seen (c :: rest) = dedupFrom seen rest := by
  simp [dedupFrom, h]

theorem dedupFrom_cons_not_mem {c : String} {seen rest : List String} (h : c ∉ seen) :
    dedupFrom seen (c :: rest) = c :: dedupFrom (c :: seen) rest := by
  simp [dedupFrom, h]

theorem linkCandidates_cons_empty {rest : List String} :
    linkCandidates ("" :: rest) = linkCandidates rest := by
  simp [linkCandidates, List.filterMap_cons]

theorem linkCandidates_cons_none {href : String} {rest : List String}
    (he : href ≠ "") (hc : clean_url href = none) :
    linkCandidates (href :: rest) = linkCandidates rest := by
  simp [linkCandidates, List.filterMap_cons, he, hc]

theorem linkCandidates_cons_notru {href c : String} {rest : List String}
    (he : href ≠ "") (hc : clean_url href = some c) (hru : is_ru_domain c = false) :
    linkCandidates (href :: rest) = linkCandidates rest := by
  simp [linkCandidates, List.filterMap_cons, he, hc, hru]

theorem linkCandidates_cons_ru {href c : String} {rest : List String}
    (he : href ≠ "") (hc : clean_url href = some c) (hru : is_ru_domain c = true) :
    linkCandidates (href :: rest) = c :: linkCandidates rest := by
  simp [linkCandidates, List.filterMap_cons, he, hc, hru]

theorem collectLinks_cons_empty {rest urls seen : List String} :
    collectLinks ("" :: rest) urls seen = collectLinks rest urls seen := by
  simp [collectLinks]

theorem collectLinks_cons_none {href : String} {rest urls seen : List String}
    (he : href ≠ "") (hc : clean_url href = none) :
    collectLinks (href :: rest) urls seen = collectLinks rest urls seen := by
  simp [collectLinks, he, hc]

theorem collectLinks_cons_seen {href c : String} {rest urls seen : List String}
    (he : href ≠ "") (hc : clean_url href = some c) (hs : c ∈ seen) :
    collectLinks (href :: rest) urls seen = collectLinks rest urls seen := by
  simp [collectLinks, he, hc, hs]

theorem collectLinks_cons_notru {href c : String} {rest urls seen : List String}
    (he : href ≠ "") (hc : clean_url href = some c) (hs : c ∉ seen)
    (hru : is_ru_domain c = false) :
    collectLinks (href :: rest) urls seen = collectLinks rest urls seen := by
  simp [collectLinks, he, hc, hs, hru]

theorem collectLinks_cons_new {href c : String} {rest urls seen : List String}
    (he : href ≠ "") (hc : clean_url href = some c) (hs : c ∉ seen)
    (hru : is_ru_domain c = true) :
    collectLinks (href :: rest) urls seen =
      collectLinks rest (urls ++ [c]) (c :: seen) := by
  simp [collectLinks, he, hc, hs, hru]

/-- Candidate URLs are absolute http(s) URLs. -/
theorem linkCandidates_isHttp {links : List String} {u : String}
    (h : u ∈ linkCandidates links) : isHttpUrl u = true := by
  obtain ⟨href, -, heq⟩ := List.mem_filterMap.mp h
  by_cases he : href = ""
  · simp [he] at heq
  · cases hc : clean_url href with
    | none => simp [he, hc] at heq
    | some c =>
      cases hru : is_ru_domain c with
      | false => simp [he, hc, hru] at heq
      | true =>
        simp [he, hc, hru] at heq
        subst heq
        exact clean_url_isHttp hc

/-- Characterization of the collection loop: it appends, in order of first
appearance, the not-yet-seen candidates, and records them in the seen set. -/
theorem collectLinks_eq :
    ∀ (links : List String) (urls seen : List String),
      collectLinks links urls seen =
        (urls ++ dedupFrom seen (linkCandidates links),
          (dedupFrom seen (linkCandidates links)).reverse ++ seen) := by
  intro links
  induction links with
  | nil => intro urls seen; simp [collectLinks, dedupFrom, linkCandidates]
  | cons href rest ih =>
    intro urls seen
    by_cases he : href = ""
    · subst he
      rw [collectLinks_cons_empty, linkCandidates_cons_empty, ih]
    · cases hc : clean_url href with
      | none => rw [collectLinks_cons_none he hc, linkCandidates_cons_none he hc, ih]
      | some c =>
        cases hru : is_ru_domain c with
        | false =>
          by_cases hs : c ∈ seen
          · rw [collectLinks_cons_seen he hc hs, linkCandidates_cons_notru he hc hru, ih]
          · rw [collectLinks_cons_notru he hc hs hru,
              linkCandidates_cons_notru he hc hru, ih]
        | true =>
          by_cases hs : c ∈ seen
          · rw [collectLinks_cons_seen he hc hs, linkCandidates_cons_ru he hc hru,
              dedupFrom_cons_mem hs, ih]
          · rw [collectLinks_cons_new he hc hs hru, linkCandidates_cons_ru he hc hru,
              dedupFrom_cons_not_mem hs, ih]
            simp [List.append_assoc]

/-- The two-phase collection equals first-appearance dedup of the primary
candidates, falling back to the fallback candidates when none survive. -/
theorem processLinks_eq (p f : List String) :
    processLinks p f =
      if dedupFrom [] (linkCandidates p) = [] then dedupFrom [] (linkCandidates f)
      else dedupFrom [] (linkCandidates p) := by
  by_cases h : dedupFrom [] (linkCandidates p) = []
  · simp [processLinks, collectLinks_eq, h]
  · simp [processLinks, collectLinks_eq, h]

/-- A successful ordered-dict lookup locates a stored pair. -/
theorem odGet_mem {β : Type} {l : List (String × β)} {k : String} {v : β}
    (h : odGet l k = some v) : (k, v) ∈ l := by
  unfold odGet at h
  obtain ⟨q, hq, hv⟩ := Option.map_eq_some'.mp h
  have hmem := List.mem_of_find?_eq_some hq
  have hkey : q.1 = k := by simpa using List.find?_some hq
  cases q with
  | mk qk qv =>
    simp only at hkey hv
    subst hkey
    subst hv
    exact hmem

/-- Ordered-dict assignment only adds or replaces the given binding. -/
theorem odSet_mem {β : Type} {l : List (String × β)} {k : String} {v : β}
    {q : String × β} (h : q ∈ odSet l k v) : q ∈ l ∨ q = (k, v) := by
  induction l with
  | nil =>
    unfold odSet at h
    exact Or.inr (List.mem_singleton.mp h)
  | cons p rest ih =>
    cases p with
    | mk k0 v0 =>
      unfold odSet at h
      split at h
      · rcases List.mem_cons.mp h with rfl | h2
        · exact Or.inr rfl
        · exact Or.inl (List.mem_cons_of_mem _ h2)
      · rcases List.mem_cons.mp h with rfl | h2
        · exact Or.inl (List.mem_cons_self _ _)
        · rcases ih h2 with h3 | h3
          · exact Or.inl (List.mem_cons_of_mem _ h3)
          · exact Or.inr h3

/-- Looking up the key just assigned returns the assigned value. -/
theorem odGet_odSet_self {β : Type} (l : List (String × β)) (k : String) (v : β) :
    odGet (odSet l k v) k = some v := by
  induction l with
  | nil => simp [odSet, odGet, List.find?]
  | cons p rest ih =>
    cases p with
    | mk k0 v0 =>
      by_cases hk : k0 = k
      · subst hk
        simp [odSet, odGet, List.find?]
      · rw [show odSet ((k0, v0) :: rest) k v = (k0, v0) :: odSet rest k v from by
          simp [odSet, hk]]
        unfold odGet
        rw [List.find?_cons_of_neg]
        · exact ih
        · simp [hk]

/-- C8: the web search never raises past its boundary — a failed attempt
yields the empty sequence — and, assuming every cached list already
satisfies the contract, every returned sequence holds at most 10
pairwise-distinct absolute http(s) URLs; a completed live search returns
exactly the first-appearance dedup of the surviving candidates (primary
anchors, falling back to the raw scan), truncated to 10, and the contract
is preserved on the cache. -/
theorem C8_search_contract :
    ∀ (st : SearchState) (key : String) (now : Int) (fetch : FetchOutcome),
      cacheWellFormed st →
      goodUrlList (ddg_search st key now fetch).1 ∧
      cacheWellFormed (ddg_search st key now fetch).2 ∧
      (cacheHit st key now = false → fetch = FetchOutcome.fail →
        ddg_search st key now fetch = ([], st)) ∧
      (∀ p f, cacheHit st key now = false → fetch = FetchOutcome.ok p f →
        (ddg_search st key now fetch).1 =
          (if dedupFrom [] (linkCandidates p) = [] then dedupFrom [] (linkCandidates f)
           else dedupFrom [] (linkCandidates p)).take 10) := by
  intro st key now fetch hwf
  by_cases hhit : cacheHit st key now = true
  · have hres : ddg_search st key now fetch = ((odGet st.cache key).getD [], st) := by
      unfold ddg_search
      rw [if_pos hhit]
    refine ⟨?_, ?_, ?_, ?_⟩
    · rw [hres]
      cases hg : odGet st.cache key with
      | none => simp [goodUrlList]
      | some v =>
        have := hwf (key, v) (odGet_mem hg)
        simpa using this
    · rw [hres]
      exact hwf
    · intro hmiss _
      rw [hmiss] at hhit
      exact absurd hhit (by simp)
    · intro p f hmiss _
      rw [hmiss] at hhit
      exact absurd hhit (by simp)
  · cases fetch with
    | fail =>
      have hres : ddg_search st key now FetchOutcome.fail = ([], st) := by
        unfold ddg_search
        rw [if_neg hhit]
      refine ⟨?_, ?_, fun _ _ => hres, ?_⟩
      · rw [hres]
        simp [goodUrlList]
      · rw [hres]
        exact hwf
      · intro p f _ hcontra
        exact FetchOutcome.noConfusion hcontra
    | ok p f =>
      have hres1 : (ddg_search st key now (FetchOutcome.ok p f)).1 =
          (processLinks p f).take 10 := by
        unfold ddg_search
        rw [if_neg hhit]
      have hres2 : (ddg_search st key now (FetchOutcome.ok p f)).2 =
          ⟨odSet st.cache key ((processLinks p f).take 10),
            odSet st.cacheTimestamps key now, st.cacheTtl, st.cacheSize⟩ := by
        unfold ddg_search
        rw [if_neg hhit]
      have hgood : goodUrlList ((processLinks p f).take 10) := by
        rw [processLinks_eq]
        have hDn : (if dedupFrom [] (linkCandidates p) = [] then
            dedupFrom [] (linkCandidates f) else dedupFrom [] (linkCandidates p)).Nodup := by
          split <;> exact dedupFrom_nodup _ _
        have hDm : ∀ u ∈ (if dedupFrom [] (linkCandidates p) = [] then
            dedupFrom [] (linkCandidates f) else dedupFrom [] (linkCandidates p)),
            isHttpUrl u = true := by
          intro u hu
          split at hu
          · exact linkCandidates_isHttp (dedupFrom_mem _ _ hu)
          · exact linkCandidates_isHttp (dedupFrom_mem _ _ hu)
        refine ⟨List.length_take_le 10 _, (List.take_sublist 10 _).nodup hDn, ?_⟩
        intro u hu
        exact hDm u (List.mem_of_mem_take hu)
      refine ⟨?_, ?_, ?_, ?_⟩
      · rw [hres1]
        exact hgood
      · rw [hres2]
        intro q hq
        rcases odSet_mem hq with h3 | h3
        · exact hwf q h3
        · rw [h3]
          exact hgood
      · intro _ hcontra
        exact FetchOutcome.noConfusion hcontra
      · intro p2 f2 _ heq
        obtain ⟨rfl, rfl⟩ : p = p2 ∧ f = f2 := by
          injection heq with h1 h2
          exact ⟨h1, h2⟩
        rw [hres1, processLinks_eq]

/-- C8 witness: the contract applied to a fresh searcher and one concrete
fetch containing a duplicate, an empty href, a denylisted URL and a
non-allow-listed domain. -/
theorem C8_search_contract_witness :
    goodUrlList (ddg_search (initSearchState 200 1800) "key0" 5
      (FetchOutcome.ok ["https://a.ru/x", "", "https://a.ru/x",
        "https://www.google.com/s", "https://site.de/x"] [])).1 ∧
    (ddg_search (initSearchState 200 1800) "key0" 5 FetchOutcome.fail = ([], initSearchState 200 1800)) :=
  ⟨(C8_search_contract (initSearchState 200 1800) "key0" 5
      (FetchOutcome.ok ["https://a.ru/x", "", "https://a.ru/x",
        "https://www.google.com/s", "https://site.de/x"] [])
      (by intro q hq; simp [initSearchState] at hq)).1,
   (C8_search_contract (initSearchState 200 1800) "key0" 5 FetchOutcome.fail
      (by intro q hq; simp [initSearchState] at hq)).2.2.1 (by decide) rfl⟩

/-- C4: a lookup hits iff the key is present with age strictly below the
TTL; a hit returns the stored list unmodified without touching the state; a
miss with a completed search stores its result — even an empty one — under
the key with the current timestamp; and an entry stored at `t0` is a hit at
`t0 + TTL − ε` and a miss at `t0 + TTL + ε` for any `ε > 0`. -/
theorem C4_cache_ttl :
    (∀ st key now fetch, cacheHit st key now = true →
      ddg_search st key now fetch = ((odGet st.cache key).getD [], st)) ∧
    (∀ st key now, cacheHit st key now = true ↔
      ((odGet st.cache key).isSome = true ∧
        now - ((odGet st.cacheTimestamps key).getD pyDatetimeMin) < st.cacheTtl)) ∧
    (∀ st key now p f, cacheHit st key now = false →
      (ddg_search st key now (FetchOutcome.ok p f)).1 = (processLinks p f).take 10 ∧
      odGet (ddg_search st key now (FetchOutcome.ok p f)).2.cache key =
        some ((processLinks p f).take 10) ∧
      odGet (ddg_search st key now (FetchOutcome.ok p f)).2.cacheTimestamps key =
        some now) ∧
    (∀ st key t0 p f ε, 0 < ε → cacheHit st key t0 = false →
      cacheHit (ddg_search st key t0 (FetchOutcome.ok p f)).2 key
        (t0 + st.cacheTtl - ε) = true ∧
      cacheHit (ddg_search st key t0 (FetchOutcome.ok p f)).2 key
        (t0 + st.cacheTtl + ε) = false) := by
  have hmiss : ∀ st key now p f, cacheHit st key now = false →
      ddg_search st key now (FetchOutcome.ok p f) =
        ((processLinks p f).take 10,
          ⟨odSet st.cache key ((processLinks p f).take 10),
            odSet st.cacheTimestamps key now, st.cacheTtl, st.cacheSize⟩) := by
    intro st key now p f h
    unfold ddg_search
    rw [if_neg (by simp [h])]
  refine ⟨?_, ?_, ?_, ?_⟩
  · intro st key now fetch h
    unfold ddg_search
    rw [if_pos h]
  · intro st key now
    simp [cacheHit, Bool.and_eq_true, decide_eq_true_eq]
  · intro st key now p f h
    rw [hmiss st key now p f h]
    exact ⟨rfl, odGet_odSet_self _ _ _, odGet_odSet_self _ _ _⟩
  · intro st key t0 p f ε hε h
    rw [hmiss st key t0 p f h]
    constructor
    · simp only [cacheHit, odGet_odSet_self, Option.isSome_some, Option.getD_some,
        Bool.true_and, decide_eq_true_eq]
      omega
    · simp only [cacheHit, odGet_odSet_self, Option.isSome_some, Option.getD_some,
        Bool.true_and, decide_eq_false_iff_not]
      omega

/-- C4 witness: the hit, store and TTL-boundary clauses at concrete
states, keys and times. -/
theorem C4_cache_ttl_witness :
    ddg_search ⟨[("q", ["https://a.ru/x"])], [("q", 100)], 1800, 200⟩ "q" 200
      FetchOutcome.fail =
      (["https://a.ru/x"], ⟨[("q", ["https://a.ru/x"])], [("q", 100)], 1800, 200⟩) ∧
    (cacheHit (ddg_search (initSearchState 200 1800) "q" 1000
        (FetchOutcome.ok [] [])).2 "q" (1000 + 1800 - 7) = true ∧
      cacheHit (ddg_search (initSearchState 200 1800) "q" 1000
        (FetchOutcome.ok [] [])).2 "q" (1000 + 1800 + 7) = false) ∧
    odGet (ddg_search (initSearchState 200 1800) "q" 1000
      (FetchOutcome.ok [] [])).2.cache "q" = some [] := by
  refine ⟨?_, ?_, ?_⟩
  · exact C4_cache_ttl.1 _ "q" 200 FetchOutcome.fail (by decide)
  · exact C4_cache_ttl.2.2.2 (initSearchState 200 1800) "q" 1000 [] [] 7
      (by decide) (by decide)
  · have h := (C4_cache_ttl.2.2.1 (initSearchState 200 1800) "q" 1000 [] []
      (by decide)).2.1
    simpa using h

/-- C1: evaluation of the code at the claim's failing input.  With the
configured capacity 2, three cache misses under distinct keys leave three
entries in the cache and the first-inserted key still present: the code
stores `cache_size` but never evicts, so the cache is not
capacity-bounded. -/
theorem C1_cache_never_evicts :
    (let st3 := (ddg_search ((ddg_search ((ddg_search (initSearchState 2 1800) "a" 0
        (FetchOutcome.ok [] [])).2) "b" 1 (FetchOutcome.ok [] [])).2) "c" 2
        (FetchOutcome.ok [] [])).2
     st3.cache.length = 3 ∧ st3.cacheSize = 2 ∧ odGet st3.cache "a" = some []) := by
  decide

/-- C2 counterexample: `today` is `datetime.now()` with a time of day
(12:00:00 here), while a resolved date is midnight, so a record whose
Parsed Date is the current calendar day is excluded — the claim's
"a record with valid name whose Parsed Date is today is included" fails. -/
theorem C2_freshness_filter_counterexample :
    is_valid_title "Конференция по ИИ" = true ∧
    (parse_events ⟨2025, 1, 15, 43200⟩
      [URLOutcome.ok ⟨"Конференция по ИИ", some ⟨2025, 1, 15, 0⟩⟩]).1 = [] := by
  decide

/-- C2 (amended): a record with a truthy, valid event name is excluded by
the freshness filter iff its Parsed Date is set and, compared as full
datetimes (resolved dates carry time 00:00), strictly earlier than `now`
captured at pipeline start; records without a resolved date are never
excluded by the freshness filter, and records dated strictly after `now`
are kept; the final collection is exactly the per-URL decisions in
processing order. -/
theorem C2_freshness_filter :
    (∀ today outs, (parse_events today outs).1 = outs.filterMap (urlDecision today)) ∧
    (∀ today e, e.eventName ≠ "" → is_valid_title e.eventName = true →
      (urlDecision today (URLOutcome.ok e) = none ↔
        ∃ d, e.parsedDate = some d ∧ dtLt d today = true)) ∧
    (∀ today e, e.eventName ≠ "" → is_valid_title e.eventName = true →
      e.parsedDate = none → urlDecision today (URLOutcome.ok e) = some e) ∧
    (∀ today e d, e.eventName ≠ "" → is_valid_title e.eventName = true →
      e.parsedDate = some d → dtLt d today = false →
      urlDecision today (URLOutcome.ok e) = some e) := by
  have hcond : ∀ (e : EventData), e.eventName ≠ "" → is_valid_title e.eventName = true →
      (decide (e.eventName = "") || !is_valid_title e.eventName) = false := by
    intro e hne hval
    simp [hne, hval]
  refine ⟨?_, ?_, ?_, ?_⟩
  · intro today outs
    induction outs with
    | nil => rfl
    | cons o rest ih =>
      unfold parse_events
      cases h : urlDecision today o <;> simp [List.filterMap_cons, h, ih]
  · intro today e hne hval
    simp only [urlDecision]
    rw [if_neg (by rw [hcond e hne hval]; simp)]
    cases hp : e.parsedDate with
    | none => simp
    | some d =>
      cases hd : dtLt d today with
      | false =>
        constructor
        · intro hcontra
          simp [hd] at hcontra
        · rintro ⟨d2, hd2, hlt⟩
          obtain rfl := Option.some.inj hd2
          rw [hd] at hlt
          exact absurd hlt (by simp)
      | true =>
        constructor
        · intro _
          exact ⟨d, rfl, hd⟩
        · intro _
          simp [hd]
  · intro today e hne hval hp
    simp only [urlDecision]
    rw [if_neg (by rw [hcond e hne hval]; simp), hp]
  · intro today e d hne hval hp hd
    simp only [urlDecision]
    rw [if_neg (by rw [hcond e hne hval]; simp), hp]
    show (if dtLt d today = true then none else some e) = some e
    rw [hd]
    simp

/-- C2 witness: the amended filter at concrete records — tomorrow kept,
no date kept, yesterday excluded — around `now` = 2025-01-15 12:00:00. -/
theorem C2_freshness_filter_witness :
    urlDecision ⟨2025, 1, 15, 43200⟩
      (URLOutcome.ok ⟨"Конференция по ИИ", some ⟨2025, 1, 16, 0⟩⟩) =
      some ⟨"Конференция по ИИ", some ⟨2025, 1, 16, 0⟩⟩ ∧
    urlDecision ⟨2025, 1, 15, 43200⟩ (URLOutcome.ok ⟨"Конференция по ИИ", none⟩) =
      some ⟨"Конференция по ИИ", none⟩ ∧
    urlDecision ⟨2025, 1, 15, 43200⟩
      (URLOutcome.ok ⟨"Конференция по ИИ", some ⟨2025, 1, 14, 0⟩⟩) = none := by
  refine ⟨?_, ?_, ?_⟩
  · exact C2_freshness_filter.2.2.2 _ _ ⟨2025, 1, 16, 0⟩ (by decide) (by decide)
      rfl (by decide)
  · exact C2_freshness_filter.2.2.1 _ _ (by decide) (by decide) rfl
  · exact (C2_freshness_filter.2.1 _ _ (by decide) (by decide)).mpr
      ⟨⟨2025, 1, 14, 0⟩, rfl, by decide⟩

/-- C3 counterexample: a URL processed to the terminal decision
SkippedInvalidTitle gets no politeness delay — the sleep count stays 0,
while the claim requires a delay after rejects as well. -/
theorem C3_politeness_delay_counterexample :
    parse_events ⟨2025, 1, 15, 0⟩ [URLOutcome.ok ⟨"ab", none⟩] = ([], 0) ∧
    is_valid_title "ab" = false := by
  decide

/-- C3 (amended): the fixed politeness delay runs exactly once per accepted
record — the sleep sits in the accept branch after the append, so rejected
(invalid title, past date) and errored URLs get no delay. -/
theorem C3_delay_only_after_accepts :
    ∀ today outs, (parse_events today outs).2 = (parse_events today outs).1.length := by
  intro today outs
  induction outs with
  | nil => rfl
  | cons o rest ih =>
    unfold parse_events
    cases h : urlDecision today o <;> simp [h, ih]

/-- C10 counterexample: "ab  cd" (double space) has 2 whitespace-delimited
words, yet splits into 3 single-space segments, so it is passed to the
pipeline unchanged although the claim requires the under-3-words rewrite. -/
theorem C10_query_rewrite_counterexample :
    (wordsOf "ab  cd".data).length = 2 ∧ act_query "ab  cd" = "ab  cd" ∧
    "ab  cd" ≠ "IT-мероприятия в Санкт-Петербурге для " ++ "ab  cd" := by
  decide

/-- C10 (amended): the rewrite triggers exactly when the query splits into
fewer than 3 single-space-separated segments (consecutive, leading or
trailing spaces contribute empty segments that are counted); otherwise the
query is handed to the pipeline unchanged. -/
theorem C10_query_rewrite :
    ∀ q : String,
      ((pySplitSpace q.data).length < 3 →
        act_query q = "IT-мероприятия в Санкт-Петербурге для " ++ q) ∧
      (3 ≤ (pySplitSpace q.data).length → act_query q = q) := by
  intro q
  constructor
  · intro h
    unfold act_query
    rw [if_pos h]
  · intro h
    unfold act_query
    rw [if_neg (by omega)]

/-- C10 witness: the amended rewrite rule at a one-word and a three-word
query. -/
theorem C10_query_rewrite_witness :
    act_query "ab" = "IT-мероприятия в Санкт-Петербурге для " ++ "ab" ∧
    act_query "раз два три" = "раз два три" :=
  ⟨(C10_query_rewrite "ab").1 (by decide), (C10_query_rewrite "раз два три").2 (by decide)⟩
